import Mathlib

/-!
Verification of the rrweb recording cutter/trimmer (RecordingCutter.js).

Shallow embedding: events are records with a numeric `type` tag, an opaque
payload (only the fields the code inspects are modelled explicitly, the rest
is kept as a raw string), and a rational timestamp.  JavaScript numbers are
modelled as `ℚ` (the fallback trimmer divides timestamps, producing
non-integer values).  Fallible functions return `Except RecError`.  The
external replay-and-capture step (`createTrueSyntheticSnapshot`) is modelled
as an oracle parameter `recon`; `none` models a rejected promise.
-/

set_option allowUnsafeReducibility true in
attribute [semireducible] Rat.mul Rat.sub Rat.add Rat.inv

namespace RecordingCutter

/-- Payload of an event.  The code only ever inspects `href`, `width`,
`height` (on Meta events) and `source` (on incremental events); everything
else in the original JSON payload is abstracted as `raw`. -/
structure EventData where
  href : Option String
  width : Option Int
  height : Option Int
  source : Option Int
  raw : String
  deriving Repr, DecidableEq

/-- An rrweb event: numeric type tag (2 = FullSnapshot, 3 = IncrementalSnapshot,
4 = Meta), payload, absolute timestamp in ms, optional tab identifier. -/
structure Event where
  type : Int
  data : EventData
  timestamp : ℚ
  tabId : Option Int
  deriving Repr, DecidableEq

/-- Errors thrown by the cutter/trimmer functions. -/
inductive RecError where
  | invalidLog
  | invalidRange
  | missingKeyframe
  | insufficientEvents
  deriving Repr, DecidableEq

/-- Timestamp comparison used by every `events.sort((a, b) => a.timestamp - b.timestamp)`. -/
def tsLe (a b : Event) : Prop := a.timestamp ≤ b.timestamp

instance : DecidableRel tsLe := fun a b => inferInstanceAs (Decidable (a.timestamp ≤ b.timestamp))

instance : IsTotal Event tsLe := ⟨fun a b => le_total a.timestamp b.timestamp⟩

instance : IsTrans Event tsLe := ⟨fun _ _ _ h h' => le_trans h h'⟩

instance : IsRefl Event tsLe := ⟨fun a => le_refl a.timestamp⟩

/-- JavaScript `Array.prototype.sort` with the timestamp comparator is a
stable sort; insertion sort is the canonical stable sort. -/
def sortByTs (l : List Event) : List Event := List.insertionSort tsLe l

/-- A log whose events are in non-decreasing timestamp order (the EventLog
ordering invariant). -/
def SortedLog (events : List Event) : Prop := List.Sorted tsLe events

instance (l : List Event) : Decidable (SortedLog l) :=
  inferInstanceAs (Decidable (List.Sorted tsLe l))

/-- Timestamp of `events[0]` (0 for an empty list; the code never reads it then). -/
def firstTs : List Event → ℚ
  | [] => 0
  | e :: _ => e.timestamp

/-- Timestamp of `events[events.length - 1]`. -/
def lastTs (events : List Event) : ℚ :=
  match events.getLast? with
  | some e => e.timestamp
  | none => 0

/-- Models the browser global `window.location.href` read by the code. -/
def windowHref : String := "about:blank"

/-- The filler Meta event appended by `cutRecording` to reach 2 events:
`{ type: 4, data: { href: window.location.href }, timestamp: ts }`. -/
def fillerMeta (ts : ℚ) : Event := ⟨4, ⟨some windowHref, none, none, none, ""⟩, ts, none⟩

/-- The body of the keyframe-selection loop of `cutRecording`: a type-2 event
replaces the running best exactly when its `|timestamp - cutStartTime|` is
strictly smaller (`bestDistance` starts at `Infinity`, so the first keyframe
always installs itself, and the running best distance is always the distance
of the kept event). -/
def selectStep (cutStartTime : ℚ) (best : Option Event) (e : Event) : Option Event :=
  if e.type = 2 then
    match best with
    | none => some e
    | some b =>
      if |e.timestamp - cutStartTime| < |b.timestamp - cutStartTime| then some e else some b
  else best

/-- The keyframe-selection loop of `cutRecording`: scan all type-2 events and
keep the one with the smallest `|timestamp - cutStartTime|`. -/
def selectSnapshot (events : List Event) (cutStartTime : ℚ) : Option Event :=
  events.foldl (selectStep cutStartTime) none

/-- The output construction of `cutRecording` once the anchor keyframe has
been selected: all events in `[min(snapshotTime, cutStart), cutEnd]` except
duplicates of the anchor (identified by timestamp + type), the anchor pushed
first, a filler Meta event 100 ms after the last event when fewer than 2
events resulted, all sorted by timestamp. -/
def cutAssemble (events : List Event) (cutStartTime cutEndTime : ℚ)
    (fullSnapshot : Event) : List Event :=
  let rangeStart := min fullSnapshot.timestamp cutStartTime
  let rangeEnd := cutEndTime
  let neededEvents := events.filter fun e =>
    decide (rangeStart ≤ e.timestamp ∧ e.timestamp ≤ rangeEnd)
  let newEvents := fullSnapshot ::
    neededEvents.filter fun e =>
      decide (¬(e.timestamp = fullSnapshot.timestamp ∧ e.type = 2))
  let newEvents2 :=
    if newEvents.length < 2 then
      newEvents ++ [fillerMeta ((newEvents.getLastD fullSnapshot).timestamp + 100)]
    else newEvents
  sortByTs newEvents2

/-- `cutRecording(events, centerTimeSeconds, beforeSeconds, afterSeconds)`. -/
def cutRecording (events : List Event) (centerTimeSeconds beforeSeconds afterSeconds : ℚ) :
    Except RecError (List Event) :=
  match events with
  | [] => .error .invalidLog
  | e0 :: _ =>
    let startTime := e0.timestamp
    let centerTimestamp := startTime + centerTimeSeconds * 1000
    let cutStartTime := centerTimestamp - beforeSeconds * 1000
    let cutEndTime := centerTimestamp + afterSeconds * 1000
    match selectSnapshot events cutStartTime with
    | none => .error .missingKeyframe
    | some fullSnapshot => .ok (cutAssemble events cutStartTime cutEndTime fullSnapshot)

/-- The full-snapshot index built at the top of `trimRecordingFallback`:
`fullSnapshots.push({ snapshot: events[i], index: i })` for every type-2 event.
`List.enum` pairs each event with its position. -/
def fullSnapshotsOf (events : List Event) : List (Nat × Event) :=
  events.enum.filter fun p => decide (p.2.type = 2)

/-- Base-snapshot selection of `trimRecordingFallback`: the overwriting loops
keep the last match, i.e. the last element of the filtered list.
Tier 1: snapshots with `timestamp <= startMs` and within the 30000 ms lookback
window; tier 2: snapshots with `timestamp <= startMs`; tier 3: `fullSnapshots[0]`. -/
def fallbackBase (events : List Event) (startMs : ℚ) : Option (Nat × Event) :=
  let fullSnapshots := fullSnapshotsOf events
  match (fullSnapshots.filter fun p =>
      decide (p.2.timestamp ≤ startMs ∧ startMs - 30000 ≤ p.2.timestamp)).getLast? with
  | some p => some p
  | none =>
    match (fullSnapshots.filter fun p => decide (p.2.timestamp ≤ startMs)).getLast? with
    | some p => some p
    | none => fullSnapshots.head?

/-- The minimal empty mutation event appended when the fallback trimmer has
collected only one event: `{ type: 3, data: { source: 0, texts: [], ... } }`. -/
def minimalMutation (ts : ℚ) : Event := ⟨3, ⟨none, none, none, some 0, ""⟩, ts, none⟩

/-- Retention rule of the fallback walk (after the `timestamp > endMs` break):
skip further full snapshots; before `startMs` keep only mutation deltas
(`type === 3 && data.source === 0`); at or after `startMs` keep everything. -/
def fallbackKeep (startMs : ℚ) (e : Event) : Bool :=
  if e.type = 2 then false
  else if e.timestamp < startMs then decide (e.type = 3 ∧ e.data.source = some 0)
  else true

/-- The pre-shift event list of `trimRecordingFallback`: base snapshot, Meta
copy 1 ms later (if the log has one), the walked-and-filtered events, sorted;
a minimal mutation is appended when exactly one event resulted. -/
def fallbackPreShift (events : List Event) (startMs endMs : ℚ)
    (baseSnapshotIndex : Nat) (baseSnapshot : Event) : List Event :=
  let newEvents1 : List Event := [baseSnapshot]
  let newEvents2 :=
    match events.find? (fun e => decide (e.type = 4)) with
    | some m => newEvents1 ++ [{ m with timestamp := baseSnapshot.timestamp + 1 }]
    | none => newEvents1
  let walked :=
    ((events.drop (baseSnapshotIndex + 1)).takeWhile fun e =>
        decide (e.timestamp ≤ endMs)).filter (fallbackKeep startMs)
  let newEvents3 := newEvents2 ++ walked
  let newEvents4 := sortByTs newEvents3
  if newEvents4.length = 1 then
    newEvents4 ++ [minimalMutation (baseSnapshot.timestamp + 10)]
  else newEvents4

/-- The per-event timestamp shift applied at the end of
`trimRecordingFallback`: pre-range mutations are compressed into the first
100 ms via `min(relativeTime / timeShift, 1) * 100`, everything else is moved
to `timestamp - startMs + 100`. -/
def fallbackShiftFn (startMs timeShift baseTime : ℚ) (e : Event) : Event :=
  if e.timestamp < startMs ∧ e.type = 3 ∧ e.data.source = some 0 then
    { e with timestamp := min ((e.timestamp - baseTime) / timeShift) 1 * 100 }
  else
    { e with timestamp := e.timestamp - startMs + 100 }

/-- The final event list of `trimRecordingFallback`: the pre-shift list with
every timestamp re-based.  Note the shift runs after the sort, and the
compression uses `ℚ` division (`x / 0 = 0` here; in the source that case is
unreachable for logs in timestamp order, since a pre-`startMs` event after
the base snapshot forces `timeShift > 0`). -/
def fallbackAssemble (events : List Event) (startMs endMs : ℚ)
    (baseSnapshotIndex : Nat) (baseSnapshot : Event) : List Event :=
  let newEvents5 := fallbackPreShift events startMs endMs baseSnapshotIndex baseSnapshot
  let timeShift := startMs - baseSnapshot.timestamp
  let baseTime := (newEvents5.headD baseSnapshot).timestamp
  newEvents5.map (fallbackShiftFn startMs timeShift baseTime)

/-- `trimRecordingFallback(events, startMs, endMs)`: the non-replaying trim. -/
def trimRecordingFallback (events : List Event) (startMs endMs : ℚ) :
    Except RecError (List Event) :=
  if fullSnapshotsOf events = [] then .error .missingKeyframe
  else
    match fallbackBase events startMs with
    | none => .error .missingKeyframe
    | some (baseSnapshotIndex, baseSnapshot) =>
      let shiftedEvents := fallbackAssemble events startMs endMs baseSnapshotIndex baseSnapshot
      if shiftedEvents.length < 2 then .error .insufficientEvents
      else .ok shiftedEvents

/-- `startMs` after the clamp `if (startMs < recordingStart) startMs = recordingStart`. -/
def clampedStart (events : List Event) (s : ℚ) : ℚ :=
  if s < firstTs events then firstTs events else s

/-- `endMs` after the clamp `if (endMs > recordingEnd) endMs = recordingEnd`. -/
def clampedEnd (events : List Event) (e : ℚ) : ℚ :=
  if e > lastTs events then lastTs events else e

/-- `snapshots.find(s => Math.abs(s.timestamp - startMs) < 1000)`: the first
type-2 event within one second of the trim start, in scan order. -/
def closeSnapshotOf (events : List Event) (startMs : ℚ) : Option Event :=
  (events.filter fun e => decide (e.type = 2)).find? fun s =>
    decide (|s.timestamp - startMs| < 1000)

/-- The boundary-keyframe choice of `trimRecording`: if the close snapshot is
a perfect match use it directly, otherwise call the reconstruction oracle
(`createTrueSyntheticSnapshot`); `none` models a rejected promise. -/
def syntheticChoice (recon : List Event → ℚ → Option Event) (events : List Event)
    (startMs : ℚ) : Option Event :=
  match closeSnapshotOf events startMs with
  | some s => if s.timestamp = startMs then some s else recon events startMs
  | none => recon events startMs

/-- The Meta payload built on the trim success path.  JavaScript `||` falls
back on any falsy value, so an empty `href` or a zero `width`/`height` is
replaced by the default just like an absent field. -/
def trimMetaData (events : List Event) : EventData :=
  match events.find? (fun e => decide (e.type = 4)) with
  | some m =>
    ⟨some (match m.data.href with
          | some h => if h = "" then windowHref else h
          | none => windowHref),
     some (match m.data.width with
          | some w => if w = 0 then 1920 else w
          | none => 1920),
     some (match m.data.height with
          | some h => if h = 0 then 1080 else h
          | none => 1080),
     none, ""⟩
  | none => ⟨some windowHref, some 1920, some 1080, none, ""⟩

/-- The output construction of the `trimRecording` success path (after a
boundary keyframe has been obtained): Meta at 0, keyframe at 1, the events in
`(startMs, endMs]` re-timestamped by `- startMs + 2`, then sorted. -/
def trimSuccess (events : List Event) (startMs endMs : ℚ) (syntheticSnapshot : Event) :
    List Event :=
  let metaEvent : Event := ⟨4, trimMetaData events, 0, syntheticSnapshot.tabId⟩
  let adjustedSnapshot := { syntheticSnapshot with timestamp := 1 }
  let eventsInRange := events.filter fun e =>
    decide (startMs < e.timestamp ∧ e.timestamp ≤ endMs)
  let shifted := eventsInRange.map fun e => { e with timestamp := e.timestamp - startMs + 2 }
  sortByTs (metaEvent :: adjustedSnapshot :: shifted)

/-- `trimRecording(events, startMs, endMs)` with the replay-and-capture step
abstracted as the oracle `recon`.  The `try`/`catch` around the success path
becomes the `none` branch of the oracle: any reconstruction failure delegates
to `trimRecordingFallback`. -/
def trimRecording (recon : List Event → ℚ → Option Event) (events : List Event)
    (startMs0 endMs0 : ℚ) : Except RecError (List Event) :=
  match events with
  | [] => .error .invalidLog
  | _ :: _ =>
    let startMs := clampedStart events startMs0
    let endMs := clampedEnd events endMs0
    if startMs ≥ endMs then .error .invalidRange
    else
      match syntheticChoice recon events startMs with
      | some syntheticSnapshot => .ok (trimSuccess events startMs endMs syntheticSnapshot)
      | none => trimRecordingFallback events startMs endMs

/-- A reconstruction oracle that always fails (every replay promise rejects). -/
def noRecon : List Event → ℚ → Option Event := fun _ _ => none

/-- A reconstruction oracle that always succeeds, returning a type-2 snapshot
at the requested timestamp with a recognisable payload (models a successful
`createTrueSyntheticSnapshot`). -/
def markedRecon : List Event → ℚ → Option Event :=
  fun _ t => some ⟨2, ⟨none, none, none, none, "synthetic"⟩, t, none⟩

/-- `RecordingStats` as returned by `analyzeRecording`; `duration` is in
seconds, `eventTypeCounts` tallies events by type tag. -/
structure RecordingStats where
  totalEvents : Nat
  duration : ℚ
  startTime : ℚ
  endTime : ℚ
  eventTypeCounts : Int → Nat

/-- `analyzeRecording(events)`: `null` on an empty/invalid input, otherwise
summary statistics of the log. -/
def analyzeRecording (events : List Event) : Option RecordingStats :=
  match events with
  | [] => none
  | e0 :: rest =>
    let firstTimestamp := e0.timestamp
    let lastTimestamp := ((e0 :: rest).getLastD e0).timestamp
    some ⟨(e0 :: rest).length, (lastTimestamp - firstTimestamp) / 1000,
      firstTimestamp, lastTimestamp,
      fun t => (e0 :: rest).countP fun e => decide (e.type = t)⟩

/-- Does the character list `needle` occur at the start of the second list?
(`true` for an empty needle, as in JavaScript.) -/
def startsWithCh : List Char → List Char → Bool
  | [], _ => true
  | _ :: _, [] => false
  | a :: as, b :: bs => a == b && startsWithCh as bs

/-- Substring occurrence on character lists; models JavaScript
`String.prototype.includes` (an empty needle always occurs). -/
def containsCh (needle : List Char) : List Char → Bool
  | [] => startsWithCh needle []
  | b :: bs => startsWithCh needle (b :: bs) || containsCh needle bs

/-- `hay.includes(needle)` on strings. -/
def jsIncludes (hay needle : String) : Bool := containsCh needle.toList hay.toList

/-- `String.prototype.toLowerCase`, restricted to the ASCII range the model uses. -/
def jsToLower (s : String) : String := ⟨s.toList.map Char.toLower⟩

/-- Digit rendering with explicit fuel, so that serialized events evaluate
inside the kernel.  `fuel ≥ n` suffices. -/
def natDigitsAux : Nat → Nat → List Char
  | 0, _ => []
  | fuel + 1, n => if n = 0 then [] else natDigitsAux fuel (n / 10) ++ [Char.ofNat (48 + n % 10)]

/-- Decimal rendering of a natural number. -/
def natStr (n : Nat) : String := if n = 0 then "0" else ⟨natDigitsAux n n⟩

/-- Decimal rendering of an integer. -/
def intStr (i : Int) : String := if i < 0 then "-" ++ natStr i.natAbs else natStr i.natAbs

/-- Rendering of a rational number (used for timestamps in the serialization
model of `JSON.stringify`). -/
def ratStr (q : ℚ) : String := intStr q.num ++ (if q.den = 1 then "" else "/" ++ natStr q.den)

/-- Serialization of an optional field for `serializeEvent`. -/
def serializeOptInt (name : String) : Option Int → String
  | some v => "\"" ++ name ++ "\":" ++ intStr v ++ ","
  | none => ""

/-- Models `JSON.stringify(event)`: a concrete rendering of every field of the
event record, so payload contents are covered by the search. -/
def serializeEvent (e : Event) : String :=
  "\x7b\"type\":" ++ toString e.type ++ ",\"data\":\x7b" ++
    (match e.data.href with
     | some h => "\"href\":\"" ++ h ++ "\","
     | none => "") ++
    serializeOptInt "width" e.data.width ++
    serializeOptInt "height" e.data.height ++
    serializeOptInt "source" e.data.source ++
    "\"raw\":\"" ++ e.data.raw ++ "\"\x7d,\"timestamp\":" ++ ratStr e.timestamp ++
    (match e.tabId with
     | some t => ",\"tabId\":" ++ intStr t
     | none => "") ++ "\x7d"

/-- The match test of `findEventsByContent`:
`JSON.stringify(event).toLowerCase().includes(searchTerm.toLowerCase())`. -/
def eventMatches (searchTerm : String) (e : Event) : Bool :=
  jsIncludes (jsToLower (serializeEvent e)) (jsToLower searchTerm)

/-- `findEventsByContent(events, searchTerm)`: the accumulating loop that
pushes every matching event in scan order. -/
def findEventsByContent (events : List Event) (searchTerm : String) : List Event :=
  events.foldl (fun matchingEvents e =>
    if eventMatches searchTerm e then matchingEvents ++ [e] else matchingEvents) []

deriving instance DecidableEq for Except

/-- The Meta payload as the specification describes it for claim C7:
href/width/height "taken from the original log's Meta event or defaults if
absent" — i.e. plain `Option.getD`, with no falsy test. -/
def trimMetaDataClaimed (events : List Event) : EventData :=
  match events.find? (fun e => decide (e.type = 4)) with
  | some m => ⟨some (m.data.href.getD windowHref), some (m.data.width.getD 1920),
      some (m.data.height.getD 1080), none, ""⟩
  | none => ⟨some windowHref, some 1920, some 1080, none, ""⟩

/-- The success-path output exactly as claim C7 words it: Meta at 0 with
`getD` metadata, the boundary keyframe at 1, then the `(startMs, endMs]`
events re-timestamped by `- startMs + 2`, sorted ascending. -/
def trimOutputClaimed (events : List Event) (startMs endMs : ℚ)
    (syntheticSnapshot : Event) : List Event :=
  ⟨4, trimMetaDataClaimed events, 0, syntheticSnapshot.tabId⟩ ::
    { syntheticSnapshot with timestamp := 1 } ::
    sortByTs ((events.filter fun e =>
        decide (startMs < e.timestamp ∧ e.timestamp ≤ endMs)).map
      fun e => { e with timestamp := e.timestamp - startMs + 2 })

/-- Concrete type-2 full-snapshot event used in the example logs. -/
def exKf (ts : ℚ) (raw : String) : Event := ⟨2, ⟨none, none, none, none, raw⟩, ts, none⟩

/-- Concrete mutation delta (`type 3`, `data.source = 0`) used in the example logs. -/
def exMut (ts : ℚ) : Event := ⟨3, ⟨none, none, none, some 0, ""⟩, ts, none⟩

/-- Concrete custom event (`type 5`) used in the example logs. -/
def exEv (ts : ℚ) : Event := ⟨5, ⟨none, none, none, none, ""⟩, ts, none⟩

/-- Concrete Meta event (`type 4`) used in the example logs. -/
def exMeta (ts : ℚ) : Event := ⟨4, ⟨some "h", some 10, some 20, none, ""⟩, ts, none⟩

/-- Two-event log with a keyframe at 1000: the smallest valid log. -/
def exLog2 : List Event := [exKf 1000 "a", exEv 2000]

/-- Log exercising the fallback trimmer's post-sort shift: a keyframe and a
mutation at 1000, a Meta at 1001, and an in-range mutation at 10000. -/
def exLogFb : List Event := [exKf 1000 "a", exMut 1000, exMeta 1001, exMut 10000]

/-- The concrete scenario of claim C3: first event at 1000, keyframes at 1000
and 11000, plus two non-keyframe events. -/
def exLogCut : List Event := [exKf 1000 "A", exEv 9500, exKf 11000 "B", exEv 13500]

/-- Two-event log whose events are 1 ms apart; cutting it down to fewer than
2 events triggers the filler Meta event. -/
def exLogTight : List Event := [exKf 1000 "a", exEv 1001]

/-- Log for claim C5: a keyframe at 1000 shadows (via `snapshots.find`) the
exact-match keyframe at 1500. -/
def exLogShadow : List Event := [exKf 1000 "A", exKf 1500 "B", exEv 3000]

/-- Log for claim C7: its Meta event carries falsy metadata (`href = ""`,
`width = 0`, `height = 0`). -/
def exLogFalsy : List Event :=
  [exKf 1000 "a", ⟨4, ⟨some "", some 0, some 0, none, ""⟩, 1000, none⟩, exEv 2000]

/-- One-event log used for the empty-search-term counterexample. -/
def exLog1 : List Event := [exKf 1000 "a"]

/-! ### Helper lemmas -/

lemma sortByTs_sorted (l : List Event) : List.Sorted tsLe (sortByTs l) :=
  List.sorted_insertionSort tsLe l

lemma sortByTs_perm (l : List Event) : (sortByTs l).Perm l :=
  List.perm_insertionSort tsLe l

lemma sortByTs_length (l : List Event) : (sortByTs l).length = l.length :=
  (sortByTs_perm l).length_eq

lemma mem_sortByTs {a : Event} {l : List Event} : a ∈ sortByTs l ↔ a ∈ l :=
  (sortByTs_perm l).mem_iff

lemma sortByTs_eq_self {l : List Event} (h : List.Sorted tsLe l) : sortByTs l = l :=
  h.insertionSort_eq

lemma sorted_head_le {e0 : Event} {rest : List Event} (h : SortedLog (e0 :: rest)) :
    ∀ x ∈ e0 :: rest, e0.timestamp ≤ x.timestamp := by
  intro x hx
  rcases List.mem_cons.mp hx with h1 | h1
  · exact h1 ▸ le_refl _
  · exact List.rel_of_sorted_cons h x h1

lemma sorted_le_getLastD : ∀ (l : List Event) (d : Event), SortedLog l →
    ∀ x ∈ l, x.timestamp ≤ (l.getLastD d).timestamp
  | [], _, _, x, hx => absurd hx (List.not_mem_nil x)
  | [a], _, _, x, hx => by
    rcases List.mem_singleton.mp hx with rfl
    simp [List.getLastD]
  | a :: b :: t, d, h, x, hx => by
    rw [List.getLastD_cons]
    rcases List.mem_cons.mp hx with h1 | h1
    · calc x.timestamp ≤ b.timestamp := h1 ▸ List.rel_of_sorted_cons h b (by simp)
        _ ≤ _ := sorted_le_getLastD (b :: t) a h.of_cons b (by simp)
    · exact sorted_le_getLastD (b :: t) a h.of_cons x h1

lemma startsWithCh_iff (n : List Char) : ∀ h : List Char,
    startsWithCh n h = true ↔ ∃ t, h = n ++ t := by
  induction n with
  | nil => intro h; simp [startsWithCh]
  | cons a as ih =>
    intro h
    cases h with
    | nil => simp [startsWithCh]
    | cons b bs =>
      simp only [startsWithCh, Bool.and_eq_true, beq_iff_eq, ih bs]
      constructor
      · rintro ⟨rfl, t, rfl⟩
        exact ⟨t, rfl⟩
      · rintro ⟨t, ht⟩
        rw [List.cons_append] at ht
        obtain ⟨rfl, rfl⟩ := List.cons_eq_cons.mp ht
        exact ⟨rfl, t, rfl⟩

lemma containsCh_iff (n : List Char) : ∀ h : List Char,
    containsCh n h = true ↔ ∃ p t, h = p ++ n ++ t := by
  intro h
  induction h with
  | nil =>
    simp only [containsCh, startsWithCh_iff]
    constructor
    · rintro ⟨t, ht⟩
      exact ⟨[], t, by simpa using ht⟩
    · rintro ⟨p, t, ht⟩
      refine ⟨t, ?_⟩
      have hp : p = [] := by
        cases p with
        | nil => rfl
        | cons c cs => simp at ht
      subst hp; simpa using ht
  | cons b bs ih =>
    simp only [containsCh, Bool.or_eq_true, startsWithCh_iff, ih]
    constructor
    · rintro (⟨t, ht⟩ | ⟨p, t, ht⟩)
      · exact ⟨[], t, by simpa using ht⟩
      · exact ⟨b :: p, t, by simp [ht]⟩
    · rintro ⟨p, t, ht⟩
      cases p with
      | nil => exact Or.inl ⟨t, by simpa using ht⟩
      | cons c cs =>
        rw [List.cons_append, List.cons_append] at ht
        obtain ⟨rfl, hbs⟩ := List.cons_eq_cons.mp ht
        exact Or.inr ⟨cs, t, by simpa using hbs⟩

lemma containsCh_nil_needle : ∀ h : List Char, containsCh [] h = true := by
  intro h
  cases h <;> simp [containsCh, startsWithCh]

lemma findEventsByContent_foldl (term : String) : ∀ (events : List Event) (acc : List Event),
    events.foldl (fun m e => if eventMatches term e then m ++ [e] else m) acc
      = acc ++ events.filter (eventMatches term) := by
  intro events
  induction events with
  | nil => intro acc; simp
  | cons e rest ih =>
    intro acc
    by_cases h : eventMatches term e
    · simp [List.filter_cons, h, ih]
    · simp [List.filter_cons, h, ih]

/-- Claim C9 (amended): `findEventsByContent` returns, in original log order,
exactly the events whose full serialization contains the search term
case-insensitively (substring occurrence of the lower-cased term in the
lower-cased serialization), and the empty search term matches every event, so
it returns the entire log rather than the empty sequence. -/
theorem C9_search_characterization (events : List Event) (term : String) :
    findEventsByContent events term = events.filter (eventMatches term) ∧
    (∀ e : Event, eventMatches term e = true ↔
      ∃ p t, (jsToLower (serializeEvent e)).toList
        = p ++ (jsToLower term).toList ++ t) ∧
    findEventsByContent events "" = events := by
  refine ⟨findEventsByContent_foldl term events [], fun e => ?_, ?_⟩
  · exact containsCh_iff (jsToLower term).toList (jsToLower (serializeEvent e)).toList
  · rw [findEventsByContent, findEventsByContent_foldl, List.nil_append]
    have hemp : ∀ e : Event, eventMatches "" e = true := by
      intro e
      have : (jsToLower "").toList = ([] : List Char) := rfl
      rw [eventMatches, jsIncludes, this]
      exact containsCh_nil_needle _
    rw [List.filter_eq_self.mpr fun e _ => hemp e]

/-- Claim C9 counterexample: on the one-event log `exLog1` the empty search
term returns the whole log, while the claim demands the empty sequence. -/
theorem C9_counterexample :
    findEventsByContent exLog1 "" = exLog1 ∧ exLog1 ≠ [] :=
  ⟨by decide, by decide⟩

lemma clampedStart_eq_max (events : List Event) (s : ℚ) :
    clampedStart events s = max s (firstTs events) := by
  rw [clampedStart]
  rcases lt_or_le s (firstTs events) with h | h
  · rw [if_pos h, max_eq_right h.le]
  · rw [if_neg (not_lt.mpr h), max_eq_left h]

lemma clampedEnd_eq_min (events : List Event) (e : ℚ) :
    clampedEnd events e = min e (lastTs events) := by
  rw [clampedEnd]
  rcases lt_or_le (lastTs events) e with h | h
  · rw [if_pos h, min_eq_right h.le]
  · rw [if_neg (not_lt.mpr h), min_eq_left h]

lemma clampedStart_idem (events : List Event) (s : ℚ) :
    clampedStart events (clampedStart events s) = clampedStart events s := by
  rw [clampedStart_eq_max, clampedStart_eq_max, max_assoc, max_self]

lemma clampedEnd_idem (events : List Event) (e : ℚ) :
    clampedEnd events (clampedEnd events e) = clampedEnd events e := by
  rw [clampedEnd_eq_min, clampedEnd_eq_min, min_assoc, min_self]

lemma trimRecordingFallback_cases (events : List Event) (s e : ℚ) :
    (∃ out, trimRecordingFallback events s e = Except.ok out) ∨
    trimRecordingFallback events s e = Except.error RecError.missingKeyframe ∨
    trimRecordingFallback events s e = Except.error RecError.insufficientEvents := by
  rw [trimRecordingFallback]
  split
  · exact Or.inr (Or.inl rfl)
  · split
    · exact Or.inr (Or.inl rfl)
    · dsimp only
      repeat' split
      all_goals
        first
          | exact Or.inr (Or.inr rfl)
          | exact Or.inl ⟨_, rfl⟩

lemma trimRecordingFallback_ne_invalidRange (events : List Event) (s e : ℚ) :
    trimRecordingFallback events s e ≠ Except.error RecError.invalidRange := by
  rcases trimRecordingFallback_cases events s e with ⟨out, h⟩ | h | h <;>
    rw [h] <;> simp

/-- Claim C6 (confirmed): for every non-empty log, `trimRecording` clamps the
start up to the first event's timestamp and the end down to the last event's
timestamp without failing (calling it with the clamped range gives the same
result), and it returns the invalid-range error exactly when, after clamping,
the start is at or after the end. -/
theorem C6_clamping (recon : List Event → ℚ → Option Event) (events : List Event)
    (s e : ℚ) (hne : events ≠ []) :
    trimRecording recon events s e
      = trimRecording recon events (clampedStart events s) (clampedEnd events e) ∧
    clampedStart events s = max s (firstTs events) ∧
    clampedEnd events e = min e (lastTs events) ∧
    (trimRecording recon events s e = Except.error RecError.invalidRange ↔
      clampedEnd events e ≤ clampedStart events s) := by
  match events with
  | [] => exact absurd rfl hne
  | e0 :: rest =>
    refine ⟨?_, clampedStart_eq_max _ _, clampedEnd_eq_min _ _, ?_⟩
    · rw [trimRecording, trimRecording, clampedStart_idem, clampedEnd_idem]
    · rw [trimRecording]
      rcases le_or_lt (clampedEnd (e0 :: rest) e) (clampedStart (e0 :: rest) s) with h | h
      · rw [if_pos (ge_iff_le.mpr h)]
        simp [h]
      · rw [if_neg (not_le.mpr h)]
        constructor
        · intro hres
          exfalso
          rcases hchoice : syntheticChoice recon (e0 :: rest) (clampedStart (e0 :: rest) s) with _ | k
          · rw [hchoice] at hres
            exact trimRecordingFallback_ne_invalidRange _ _ _ hres
          · rw [hchoice] at hres
            exact Except.noConfusion hres
        · intro hle
          exact absurd hle (not_le.mpr h)

/-- Claim C6 witness: the theorem instantiated on the concrete two-event log
with a start before the log and an end beyond it. -/
theorem C6_clamping_witness :
    exLog2 ≠ [] ∧
    (trimRecording noRecon exLog2 500 99999
      = trimRecording noRecon exLog2 (clampedStart exLog2 500) (clampedEnd exLog2 99999) ∧
    clampedStart exLog2 500 = max 500 (firstTs exLog2) ∧
    clampedEnd exLog2 99999 = min 99999 (lastTs exLog2) ∧
    (trimRecording noRecon exLog2 500 99999 = Except.error RecError.invalidRange ↔
      clampedEnd exLog2 99999 ≤ clampedStart exLog2 500)) :=
  ⟨by decide, C6_clamping noRecon exLog2 500 99999 (by decide)⟩

/-- Claim C5 (amended): the reconstruction step is skipped exactly when the
first type-2 keyframe lying strictly within 1000 ms of the clamped start (in
scan order) has timestamp equal to the clamped start; in that case the trim
result is oracle-independent and, for a valid range, is the success-path
output built on that keyframe.  An exact-match keyframe that is preceded in
scan order by another keyframe within 1000 ms does not suppress
reconstruction. -/
theorem C5_exact_match (events : List Event) (s e : ℚ)
    (r1 r2 : List Event → ℚ → Option Event) (k : Event) (hne : events ≠ [])
    (hk : closeSnapshotOf events (clampedStart events s) = some k)
    (hts : k.timestamp = clampedStart events s) :
    trimRecording r1 events s e = trimRecording r2 events s e ∧
    (clampedStart events s < clampedEnd events e →
      trimRecording r1 events s e
        = Except.ok (trimSuccess events (clampedStart events s) (clampedEnd events e) k)) := by
  match events with
  | [] => exact absurd rfl hne
  | e0 :: rest =>
    have hchoice : ∀ r : List Event → ℚ → Option Event,
        syntheticChoice r (e0 :: rest) (clampedStart (e0 :: rest) s) = some k := by
      intro r
      rw [syntheticChoice, hk]
      simp [hts]
    constructor
    · rw [trimRecording, trimRecording, hchoice r1, hchoice r2]
    · intro hlt
      rw [trimRecording, if_neg (not_le.mpr hlt), hchoice r1]

/-- Claim C5 witness: the theorem instantiated on a log whose only keyframe
within one second of the start is the exact match itself. -/
theorem C5_exact_match_witness :
    (exLog2 ≠ [] ∧ closeSnapshotOf exLog2 (clampedStart exLog2 1000) = some (exKf 1000 "a") ∧
      (exKf 1000 "a").timestamp = clampedStart exLog2 1000) ∧
    (trimRecording noRecon exLog2 1000 2000 = trimRecording markedRecon exLog2 1000 2000 ∧
    (clampedStart exLog2 1000 < clampedEnd exLog2 2000 →
      trimRecording noRecon exLog2 1000 2000
        = Except.ok (trimSuccess exLog2 (clampedStart exLog2 1000) (clampedEnd exLog2 2000)
            (exKf 1000 "a")))) :=
  ⟨⟨by decide, by decide, by decide⟩,
    C5_exact_match exLog2 1000 2000 noRecon markedRecon (exKf 1000 "a")
      (by decide) (by decide) (by decide)⟩

/-- Claim C5 counterexample: `exLogShadow` contains a keyframe whose timestamp
exactly equals the clamped start (1500), yet the result of `trimRecording`
depends on the reconstruction oracle, because `snapshots.find` returns the
earlier keyframe at 1000 (within 1000 ms of the start) and its timestamp is
not an exact match. -/
theorem C5_counterexample :
    ((exKf 1500 "B") ∈ exLogShadow ∧ (exKf 1500 "B").type = 2 ∧
      (exKf 1500 "B").timestamp = clampedStart exLogShadow 1500) ∧
    trimRecording noRecon exLogShadow 1500 3000
      ≠ trimRecording markedRecon exLogShadow 1500 3000 :=
  ⟨⟨by decide, by decide, by decide⟩, by decide⟩

lemma fullSnapshotsOf_eq_nil_iff (events : List Event) :
    fullSnapshotsOf events = [] ↔ ∀ k ∈ events, k.type ≠ 2 := by
  rw [fullSnapshotsOf, List.filter_eq_nil_iff]
  constructor
  · intro h k hk ht
    obtain ⟨n, hn⟩ := List.mem_iff_getElem?.mp hk
    have hmem : (n, k) ∈ events.enum := List.mem_enum_iff_getElem?.mpr hn
    have := h (n, k) hmem
    simp only [decide_eq_true_eq] at this
    exact this ht
  · intro h p hp
    have hmem : p.2 ∈ events :=
      List.mem_iff_getElem?.mpr ⟨p.1, List.mem_enum_iff_getElem?.mp hp⟩
    simpa using h p.2 hmem

lemma fallbackBase_mem {events : List Event} {s : ℚ} {p : Nat × Event}
    (h : fallbackBase events s = some p) : p ∈ fullSnapshotsOf events := by
  rw [fallbackBase] at h
  split at h
  · next hgl =>
    cases h
    exact List.mem_of_mem_filter (List.mem_of_mem_getLast? hgl)
  · split at h
    · next hgl =>
      cases h
      exact List.mem_of_mem_filter (List.mem_of_mem_getLast? hgl)
    · exact List.mem_of_mem_head? h

lemma fallbackBase_type2 {events : List Event} {s : ℚ} {p : Nat × Event}
    (h : fallbackBase events s = some p) : p.2.type = 2 := by
  have hmem := fallbackBase_mem h
  rw [fullSnapshotsOf] at hmem
  simpa using (List.mem_filter.mp hmem).2

lemma fallbackBase_isSome {events : List Event} {s : ℚ}
    (h : fullSnapshotsOf events ≠ []) : ∃ p, fallbackBase events s = some p := by
  rw [fallbackBase]
  split
  · exact ⟨_, rfl⟩
  · split
    · exact ⟨_, rfl⟩
    · cases hfs : fullSnapshotsOf events with
      | nil => exact absurd hfs h
      | cons a t => exact ⟨a, rfl⟩

lemma base_mem_fallbackPreShift (events : List Event) (s e : ℚ) (i : Nat) (b : Event) :
    b ∈ fallbackPreShift events s e i b := by
  rw [fallbackPreShift]
  have hb : b ∈ sortByTs
      ((match events.find? (fun x => decide (x.type = 4)) with
        | some m => [b] ++ [{ m with timestamp := b.timestamp + 1 }]
        | none => [b]) ++
        ((events.drop (i + 1)).takeWhile fun x =>
            decide (x.timestamp ≤ e)).filter (fallbackKeep s)) := by
    rw [mem_sortByTs]
    apply List.mem_append_left
    split <;> simp
  split
  · exact List.mem_append_left _ hb
  · exact hb

lemma two_le_fallbackPreShift_length (events : List Event) (s e : ℚ) (i : Nat) (b : Event) :
    2 ≤ (fallbackPreShift events s e i b).length := by
  have hpos : 0 < (fallbackPreShift events s e i b).length :=
    List.length_pos_of_mem (base_mem_fallbackPreShift events s e i b)
  rw [fallbackPreShift] at hpos ⊢
  split at hpos
  · next hlen =>
    rw [if_pos hlen, List.length_append, hlen]
    exact le_refl 2
  · next hlen =>
    rw [if_neg hlen]
    omega

lemma fallbackShiftFn_type (s ts bt : ℚ) (x : Event) :
    (fallbackShiftFn s ts bt x).type = x.type := by
  rw [fallbackShiftFn]
  split <;> rfl

lemma fallbackAssemble_ok (events : List Event) (s e : ℚ) (i : Nat) (b : Event) :
    2 ≤ (fallbackAssemble events s e i b).length ∧
    ∃ x ∈ fallbackAssemble events s e i b, x.type = b.type := by
  rw [fallbackAssemble]
  constructor
  · rw [List.length_map]
    exact two_le_fallbackPreShift_length events s e i b
  · refine ⟨fallbackShiftFn s (s - b.timestamp)
      (((fallbackPreShift events s e i b).headD b).timestamp) b, ?_, ?_⟩
    · exact List.mem_map_of_mem _ (base_mem_fallbackPreShift events s e i b)
    · exact fallbackShiftFn_type _ _ _ b

lemma trimRecordingFallback_ok {events : List Event} (s e : ℚ)
    (hkf : ∃ k ∈ events, k.type = 2) :
    ∃ out, trimRecordingFallback events s e = Except.ok out ∧
      2 ≤ out.length ∧ ∃ x ∈ out, x.type = 2 := by
  have hne : fullSnapshotsOf events ≠ [] := by
    rw [Ne, fullSnapshotsOf_eq_nil_iff]
    push_neg
    obtain ⟨k, hk, ht⟩ := hkf
    exact ⟨k, hk, ht⟩
  obtain ⟨⟨i, b⟩, hbase⟩ := fallbackBase_isSome (s := s) hne
  obtain ⟨hlen, x, hx, hxt⟩ := fallbackAssemble_ok events s e i b
  refine ⟨fallbackAssemble events s e i b, ?_, hlen, x, hx, ?_⟩
  · rw [trimRecordingFallback, if_neg (by exact hne), hbase]
    dsimp only
    rw [if_neg (by omega)]
  · rw [hxt]
    exact fallbackBase_type2 hbase

/-- Claim C2 (confirmed): for a non-empty log containing a type-2 keyframe
and a range valid after clamping, a failing reconstruction never propagates
an error to the caller: `trimRecording` returns an `ok` result, and whenever
the close-snapshot probe does not produce an exact match (so reconstruction
really was attempted), that result is exactly the result of
`trimRecordingFallback` on the clamped range. -/
theorem C2_fallback_on_failure (recon : List Event → ℚ → Option Event)
    (events : List Event) (s e : ℚ) (hne : events ≠ [])
    (hkf : ∃ k ∈ events, k.type = 2)
    (hfail : recon events (clampedStart events s) = none)
    (hrange : clampedStart events s < clampedEnd events e) :
    (∃ out, trimRecording recon events s e = Except.ok out) ∧
    ((∀ k, closeSnapshotOf events (clampedStart events s) = some k →
        k.timestamp ≠ clampedStart events s) →
      trimRecording recon events s e
        = trimRecordingFallback events (clampedStart events s) (clampedEnd events e)) := by
  match events with
  | [] => exact absurd rfl hne
  | e0 :: rest =>
    rw [trimRecording]
    rw [if_neg (not_le.mpr hrange)]
    rcases hclose : closeSnapshotOf (e0 :: rest) (clampedStart (e0 :: rest) s) with _ | k
    · have hchoice : syntheticChoice recon (e0 :: rest) (clampedStart (e0 :: rest) s) = none := by
        rw [syntheticChoice, hclose, hfail]
      rw [hchoice]
      obtain ⟨out, hout, -, -⟩ := trimRecordingFallback_ok
        (clampedStart (e0 :: rest) s) (clampedEnd (e0 :: rest) e) hkf
      exact ⟨⟨out, hout⟩, fun _ => rfl⟩
    · by_cases hts : k.timestamp = clampedStart (e0 :: rest) s
      · have hchoice : syntheticChoice recon (e0 :: rest) (clampedStart (e0 :: rest) s) = some k := by
          rw [syntheticChoice, hclose]
          simp [hts]
        rw [hchoice]
        refine ⟨⟨_, rfl⟩, fun hnone => ?_⟩
        exact absurd hts (hnone k rfl)
      · have hchoice : syntheticChoice recon (e0 :: rest) (clampedStart (e0 :: rest) s) = none := by
          rw [syntheticChoice, hclose]
          simp [hts, hfail]
        rw [hchoice]
        obtain ⟨out, hout, -, -⟩ := trimRecordingFallback_ok
          (clampedStart (e0 :: rest) s) (clampedEnd (e0 :: rest) e) hkf
        exact ⟨⟨out, hout⟩, fun _ => rfl⟩

/-- Claim C2 witness: the theorem instantiated on `exLogShadow` (keyframes at
1000 and 1500) with the always-failing oracle and range 1500..3000, where the
close-snapshot probe returns the non-exact keyframe at 1000. -/
theorem C2_fallback_on_failure_witness :
    (exLogShadow ≠ [] ∧ (∃ k ∈ exLogShadow, k.type = 2) ∧
      noRecon exLogShadow (clampedStart exLogShadow 1500) = none ∧
      clampedStart exLogShadow 1500 < clampedEnd exLogShadow 3000) ∧
    ((∃ out, trimRecording noRecon exLogShadow 1500 3000 = Except.ok out) ∧
    ((∀ k, closeSnapshotOf exLogShadow (clampedStart exLogShadow 1500) = some k →
        k.timestamp ≠ clampedStart exLogShadow 1500) →
      trimRecording noRecon exLogShadow 1500 3000
        = trimRecordingFallback exLogShadow (clampedStart exLogShadow 1500)
            (clampedEnd exLogShadow 3000))) :=
  ⟨⟨by decide, by decide, by decide, by decide⟩,
    C2_fallback_on_failure noRecon exLogShadow 1500 3000
      (by decide) (by decide) (by decide) (by decide)⟩

lemma selectStep_not2 {c : ℚ} {best : Option Event} {e : Event} (he : ¬ e.type = 2) :
    selectStep c best e = best := by
  unfold selectStep
  rw [if_neg he]

lemma foldl_selectStep_go (c : ℚ) : ∀ (l : List Event) (b : Event),
    (l.foldl (selectStep c) (some b) = some b ∧
      ∀ e ∈ l, e.type = 2 → |b.timestamp - c| ≤ |e.timestamp - c|) ∨
    (∃ k l1 l2, l.foldl (selectStep c) (some b) = some k ∧ l = l1 ++ k :: l2 ∧
      k.type = 2 ∧ |k.timestamp - c| < |b.timestamp - c| ∧
      (∀ e ∈ l, e.type = 2 → |k.timestamp - c| ≤ |e.timestamp - c|) ∧
      (∀ e ∈ l1, e.type = 2 → |k.timestamp - c| < |e.timestamp - c|)) := by
  intro l
  induction l with
  | nil =>
    intro b
    left
    exact ⟨rfl, by simp⟩
  | cons e t ih =>
    intro b
    by_cases he : e.type = 2
    · by_cases hd : |e.timestamp - c| < |b.timestamp - c|
      · have hstep : selectStep c (some b) e = some e := by
          rw [selectStep, if_pos he, if_pos hd]
        rcases ih e with ⟨h1, h2⟩ | ⟨k, l1, l2, hf, hsplit, hk2, hkd, hmin, hstrict⟩
        · right
          refine ⟨e, [], t, ?_, rfl, he, hd, ?_, by simp⟩
          · rw [List.foldl_cons, hstep, h1]
          · intro x hx hx2
            rcases List.mem_cons.mp hx with rfl | hx
            · exact le_refl _
            · exact h2 x hx hx2
        · right
          refine ⟨k, e :: l1, l2, ?_, by rw [hsplit, List.cons_append], hk2,
            lt_trans hkd hd, ?_, ?_⟩
          · rw [List.foldl_cons, hstep, hf]
          · intro x hx hx2
            rcases List.mem_cons.mp hx with rfl | hx
            · exact le_of_lt hkd
            · exact hmin x hx hx2
          · intro x hx hx2
            rcases List.mem_cons.mp hx with rfl | hx
            · exact hkd
            · exact hstrict x hx hx2
      · have hstep : selectStep c (some b) e = some b := by
          rw [selectStep, if_pos he, if_neg hd]
        rcases ih b with ⟨h1, h2⟩ | ⟨k, l1, l2, hf, hsplit, hk2, hkd, hmin, hstrict⟩
        · left
          refine ⟨by rw [List.foldl_cons, hstep, h1], ?_⟩
          intro x hx hx2
          rcases List.mem_cons.mp hx with rfl | hx
          · exact not_lt.mp hd
          · exact h2 x hx hx2
        · right
          refine ⟨k, e :: l1, l2, by rw [List.foldl_cons, hstep, hf],
            by rw [hsplit, List.cons_append], hk2, hkd, ?_, ?_⟩
          · intro x hx hx2
            rcases List.mem_cons.mp hx with rfl | hx
            · exact le_of_lt (lt_of_lt_of_le hkd (not_lt.mp hd))
            · exact hmin x hx hx2
          · intro x hx hx2
            rcases List.mem_cons.mp hx with rfl | hx
            · exact lt_of_lt_of_le hkd (not_lt.mp hd)
            · exact hstrict x hx hx2
    · have hstep : selectStep c (some b) e = some b := selectStep_not2 he
      rcases ih b with ⟨h1, h2⟩ | ⟨k, l1, l2, hf, hsplit, hk2, hkd, hmin, hstrict⟩
      · left
        refine ⟨by rw [List.foldl_cons, hstep, h1], ?_⟩
        intro x hx hx2
        rcases List.mem_cons.mp hx with rfl | hx
        · exact absurd hx2 he
        · exact h2 x hx hx2
      · right
        refine ⟨k, e :: l1, l2, by rw [List.foldl_cons, hstep, hf],
          by rw [hsplit, List.cons_append], hk2, hkd, ?_, ?_⟩
        · intro x hx hx2
          rcases List.mem_cons.mp hx with rfl | hx
          · exact absurd hx2 he
          · exact hmin x hx hx2
        · intro x hx hx2
          rcases List.mem_cons.mp hx with rfl | hx
          · exact absurd hx2 he
          · exact hstrict x hx hx2

lemma foldl_selectStep_some (c : ℚ) (l : List Event) (b : Event) :
    ∃ k, l.foldl (selectStep c) (some b) = some k := by
  rcases foldl_selectStep_go c l b with ⟨h1, -⟩ | ⟨k, _, _, hf, -⟩
  · exact ⟨b, h1⟩
  · exact ⟨k, hf⟩

lemma selectSnapshot_eq_none_iff : ∀ (events : List Event) (c : ℚ),
    (selectSnapshot events c = none ↔ ∀ e ∈ events, e.type ≠ 2) := by
  intro events c
  induction events with
  | nil => simp [selectSnapshot]
  | cons e t ih =>
    rw [selectSnapshot, List.foldl_cons]
    by_cases he : e.type = 2
    · rw [show selectStep c none e = some e from by unfold selectStep; rw [if_pos he]]
      obtain ⟨k, hk⟩ := foldl_selectStep_some c t e
      rw [hk]
      constructor
      · intro h
        exact absurd h (by simp)
      · intro h
        exact absurd he (h e (by simp))
    · rw [selectStep_not2 he]
      rw [selectSnapshot] at ih
      rw [ih]
      constructor
      · intro h x hx
        rcases List.mem_cons.mp hx with rfl | hx
        · exact he
        · exact h x hx
      · intro h x hx
        exact h x (List.mem_cons_of_mem e hx)

lemma selectSnapshot_eq_some_char (c : ℚ) : ∀ (events : List Event) (k : Event),
    selectSnapshot events c = some k →
    k ∈ events ∧ k.type = 2 ∧
    (∀ e ∈ events, e.type = 2 → |k.timestamp - c| ≤ |e.timestamp - c|) ∧
    ∃ l1 l2, events = l1 ++ k :: l2 ∧
      ∀ e ∈ l1, e.type = 2 → |k.timestamp - c| < |e.timestamp - c| := by
  intro events
  induction events with
  | nil =>
    intro k h
    exact absurd h (by simp [selectSnapshot])
  | cons e t ih =>
    intro k h
    rw [selectSnapshot, List.foldl_cons] at h
    by_cases he : e.type = 2
    · rw [show selectStep c none e = some e from by unfold selectStep; rw [if_pos he]] at h
      rcases foldl_selectStep_go c t e with ⟨h1, h2⟩ |
        ⟨k', l1, l2, hf, hsplit, hk2, hkd, hmin, hstrict⟩
      · rw [h1] at h
        obtain rfl : e = k := Option.some.inj h
        refine ⟨by simp, he, ?_, [], t, rfl, by simp⟩
        intro x hx hx2
        rcases List.mem_cons.mp hx with rfl | hx
        · exact le_refl _
        · exact h2 x hx hx2
      · rw [hf] at h
        obtain rfl : k' = k := Option.some.inj h
        refine ⟨?_, hk2, ?_, e :: l1, l2, by rw [hsplit, List.cons_append], ?_⟩
        · rw [hsplit]
          exact List.mem_cons_of_mem e (by simp)
        · intro x hx hx2
          rcases List.mem_cons.mp hx with rfl | hx
          · exact le_of_lt hkd
          · exact hmin x hx hx2
        · intro x hx hx2
          rcases List.mem_cons.mp hx with rfl | hx
          · exact hkd
          · exact hstrict x hx hx2
    · rw [selectStep_not2 he] at h
      obtain ⟨hmem, hk2, hmin, l1, l2, hsplit, hstrict⟩ := ih k (by rw [selectSnapshot]; exact h)
      refine ⟨List.mem_cons_of_mem e hmem, hk2, ?_, e :: l1, l2,
        by rw [hsplit, List.cons_append], ?_⟩
      · intro x hx hx2
        rcases List.mem_cons.mp hx with rfl | hx
        · exact absurd hx2 he
        · exact hmin x hx hx2
      · intro x hx hx2
        rcases List.mem_cons.mp hx with rfl | hx
        · exact absurd hx2 he
        · exact hstrict x hx hx2

lemma cutRecording_missing_iff (e0 : Event) (rest : List Event) (cs bs as' : ℚ) :
    cutRecording (e0 :: rest) cs bs as' = Except.error RecError.missingKeyframe ↔
      ∀ e ∈ e0 :: rest, e.type ≠ 2 := by
  unfold cutRecording
  dsimp only
  split
  · next hsel =>
    constructor
    · intro _
      exact (selectSnapshot_eq_none_iff _ _).mp hsel
    · intro _
      rfl
  · next k hsel =>
    constructor
    · intro h
      exact absurd h (by simp)
    · intro hall
      have hnone := (selectSnapshot_eq_none_iff (e0 :: rest)
        (e0.timestamp + cs * 1000 - bs * 1000)).mpr hall
      rw [hsel] at hnone
      exact absurd hnone (by simp)

/-- Claim C3 (confirmed): whenever the keyframe scan of `cutRecording`
returns a keyframe, that keyframe is a type-2 member of the log whose
distance to `cutStart` is minimal among all type-2 events, and every type-2
event occurring earlier in scan order has strictly greater distance (ties are
broken by the first keyframe found); `cutRecording` fails with the
missing-keyframe error exactly when the log has no type-2 event; and on the
concrete scenario (first event at 1000, keyframes at 1000 and 11000,
`cut(log, 10, 2, 2)`, so `cutStart = 9000`) the keyframe at 11000
(distance 2000) wins over the one at 1000 (distance 8000) and anchors the
output. -/
theorem C3_nearest_keyframe :
    (∀ (events : List Event) (c : ℚ) (k : Event), selectSnapshot events c = some k →
      k ∈ events ∧ k.type = 2 ∧
      (∀ e ∈ events, e.type = 2 → |k.timestamp - c| ≤ |e.timestamp - c|) ∧
      ∃ l1 l2, events = l1 ++ k :: l2 ∧
        ∀ e ∈ l1, e.type = 2 → |k.timestamp - c| < |e.timestamp - c|) ∧
    (∀ (events : List Event) (cs bs as' : ℚ), events ≠ [] →
      (cutRecording events cs bs as' = Except.error RecError.missingKeyframe ↔
        ∀ e ∈ events, e.type ≠ 2)) ∧
    (firstTs exLogCut + 10 * 1000 - 2 * 1000 = 9000 ∧
      selectSnapshot exLogCut 9000 = some (exKf 11000 "B") ∧
      cutRecording exLogCut 10 2 2 = Except.ok [exEv 9500, exKf 11000 "B"]) := by
  refine ⟨fun events c k h => selectSnapshot_eq_some_char c events k h, ?_,
    by decide, by decide, by decide⟩
  intro events cs bs as' hne
  match events with
  | [] => exact absurd rfl hne
  | e0 :: rest => exact cutRecording_missing_iff e0 rest cs bs as'

/-- Claim C3 witness: the characterization applied to the concrete scenario
log, for the selected keyframe at 11000. -/
theorem C3_nearest_keyframe_witness :
    exKf 11000 "B" ∈ exLogCut ∧ (exKf 11000 "B").type = 2 ∧
    (∀ e ∈ exLogCut, e.type = 2 →
      |(exKf 11000 "B").timestamp - 9000| ≤ |e.timestamp - 9000|) ∧
    ∃ l1 l2, exLogCut = l1 ++ exKf 11000 "B" :: l2 ∧
      ∀ e ∈ l1, e.type = 2 →
        |(exKf 11000 "B").timestamp - 9000| < |e.timestamp - 9000| :=
  C3_nearest_keyframe.1 exLogCut 9000 (exKf 11000 "B") (by decide)

lemma pairwise_snd_fullSnapshotsOf {events : List Event} (h : SortedLog events) :
    (fullSnapshotsOf events).Pairwise fun p q => p.2.timestamp ≤ q.2.timestamp := by
  have h1 : events.enum.Pairwise fun p q => p.2.timestamp ≤ q.2.timestamp := by
    rw [SortedLog, List.Sorted, ← List.enum_map_snd events, List.pairwise_map] at h
    exact h
  exact h1.sublist (List.filter_sublist _)

lemma pairwise_ts_le_getLast? : ∀ (l : List (Nat × Event)),
    l.Pairwise (fun p q => p.2.timestamp ≤ q.2.timestamp) →
    ∀ p, l.getLast? = some p → ∀ q ∈ l, q.2.timestamp ≤ p.2.timestamp
  | [] => by
    intro _ p hp
    simp at hp
  | [a] => by
    intro _ p hp q hq
    rw [List.getLast?_singleton] at hp
    rcases List.mem_singleton.mp hq with rfl
    rcases Option.some.inj hp with rfl
    exact le_refl _
  | a :: b :: t => by
    intro hpair p hp q hq
    rw [List.getLast?_cons_cons] at hp
    rcases List.mem_cons.mp hq with rfl | hq
    · exact (List.pairwise_cons.mp hpair).1 p (List.mem_of_mem_getLast? hp)
    · exact pairwise_ts_le_getLast? (b :: t) (List.pairwise_cons.mp hpair).2 p hp q hq

lemma mem_fullSnapshotsOf_iff {events : List Event} {k : Event} :
    (∃ i, (i, k) ∈ fullSnapshotsOf events) ↔ k ∈ events ∧ k.type = 2 := by
  constructor
  · rintro ⟨i, hi⟩
    obtain ⟨henum, ht⟩ := List.mem_filter.mp hi
    exact ⟨List.mem_iff_getElem?.mpr ⟨i, List.mem_enum_iff_getElem?.mp henum⟩,
      by simpa using ht⟩
  · rintro ⟨hk, ht⟩
    obtain ⟨i, hi⟩ := List.mem_iff_getElem?.mp hk
    exact ⟨i, List.mem_filter.mpr ⟨List.mem_enum_iff_getElem?.mpr hi, by simpa using ht⟩⟩

lemma head?_enumFrom_filter_snd (p : Event → Bool) : ∀ (n : Nat) (l : List Event),
    (((List.enumFrom n l).filter fun q => p q.2).head?).map Prod.snd = l.find? p
  | _, [] => rfl
  | n, e :: t => by
    rw [List.enumFrom_cons, List.filter_cons, List.find?_cons]
    by_cases hp : p e
    · rw [if_pos (by simpa using hp)]
      simp [hp]
    · rw [if_neg (by simpa using hp)]
      simp only [hp]
      exact head?_enumFrom_filter_snd p (n + 1) t

lemma head?_fullSnapshotsOf_snd (events : List Event) :
    ((fullSnapshotsOf events).head?).map Prod.snd
      = events.find? fun k => decide (k.type = 2) :=
  head?_enumFrom_filter_snd (fun k => decide (k.type = 2)) 0 events

/-- Claim C8 (confirmed): for every (timestamp-ordered) log,
`trimRecordingFallback` fails with the missing-keyframe error exactly when
the log has no type-2 event, and the base keyframe it selects is: the
closest type-2 keyframe at or before `startMs` within the 30000 ms lookback
window when one exists; otherwise the closest type-2 keyframe at or before
`startMs` regardless of distance, when one exists; otherwise the first
type-2 keyframe of the log. -/
theorem C8_fallback_base_selection (events : List Event) (s e : ℚ)
    (hs : SortedLog events) :
    (trimRecordingFallback events s e = Except.error RecError.missingKeyframe ↔
      ∀ k ∈ events, k.type ≠ 2) ∧
    (∀ (i : Nat) (b : Event), fallbackBase events s = some (i, b) →
      b ∈ events ∧ b.type = 2 ∧
      ((∃ k ∈ events, k.type = 2 ∧ k.timestamp ≤ s ∧ s - 30000 ≤ k.timestamp) →
        b.timestamp ≤ s ∧ s - 30000 ≤ b.timestamp ∧
        ∀ k ∈ events, k.type = 2 → k.timestamp ≤ s → s - 30000 ≤ k.timestamp →
          k.timestamp ≤ b.timestamp) ∧
      ((¬ ∃ k ∈ events, k.type = 2 ∧ k.timestamp ≤ s ∧ s - 30000 ≤ k.timestamp) →
        (∃ k ∈ events, k.type = 2 ∧ k.timestamp ≤ s) →
        b.timestamp ≤ s ∧
        ∀ k ∈ events, k.type = 2 → k.timestamp ≤ s → k.timestamp ≤ b.timestamp) ∧
      ((¬ ∃ k ∈ events, k.type = 2 ∧ k.timestamp ≤ s) →
        some b = events.find? fun k => decide (k.type = 2))) := by
  have hpair := pairwise_snd_fullSnapshotsOf hs
  constructor
  · constructor
    · intro h
      intro k hk ht
      rw [trimRecordingFallback] at h
      by_cases hnil : fullSnapshotsOf events = []
      · exact (fullSnapshotsOf_eq_nil_iff events).mp hnil k hk ht
      · rw [if_neg hnil] at h
        obtain ⟨⟨i, b⟩, hbase⟩ := fallbackBase_isSome (s := s) hnil
        rw [hbase] at h
        dsimp only at h
        split at h
        · simp at h
        · simp at h
    · intro h
      rw [trimRecordingFallback, if_pos ((fullSnapshotsOf_eq_nil_iff events).mpr h)]
  · intro i b hbase
    have hmem2 := mem_fullSnapshotsOf_iff.mp ⟨i, fallbackBase_mem hbase⟩
    refine ⟨hmem2.1, hmem2.2, ?_, ?_, ?_⟩
    · -- tier 1
      rintro ⟨k, hk, hk2, hkle, hkwin⟩
      obtain ⟨ik, hikmem⟩ := mem_fullSnapshotsOf_iff.mpr ⟨hk, hk2⟩
      have hkfil : (ik, k) ∈ (fullSnapshotsOf events).filter fun p =>
          decide (p.2.timestamp ≤ s ∧ s - 30000 ≤ p.2.timestamp) :=
        List.mem_filter.mpr ⟨hikmem, by simp [hkle, hkwin]⟩
      have hne : ((fullSnapshotsOf events).filter fun p =>
          decide (p.2.timestamp ≤ s ∧ s - 30000 ≤ p.2.timestamp)) ≠ [] :=
        List.ne_nil_of_mem hkfil
      obtain ⟨pl, hpl⟩ := Option.isSome_iff_exists.mp (List.getLast?_isSome.mpr hne)
      have hbase' : fallbackBase events s = some pl := by
        rw [fallbackBase, hpl]
      rw [hbase'] at hbase
      rcases Option.some.inj hbase with rfl
      have hplmem := List.mem_of_mem_getLast? hpl
      have hplcond := (List.mem_filter.mp hplmem).2
      simp only [decide_eq_true_eq] at hplcond
      refine ⟨hplcond.1, hplcond.2, ?_⟩
      intro k' hk' hk'2 hk'le hk'win
      obtain ⟨ik', hik'⟩ := mem_fullSnapshotsOf_iff.mpr ⟨hk', hk'2⟩
      have hk'fil : (ik', k') ∈ (fullSnapshotsOf events).filter fun p =>
          decide (p.2.timestamp ≤ s ∧ s - 30000 ≤ p.2.timestamp) :=
        List.mem_filter.mpr ⟨hik', by simp [hk'le, hk'win]⟩
      exact pairwise_ts_le_getLast? _ (hpair.sublist (List.filter_sublist _))
        _ hpl _ hk'fil
    · -- tier 2
      intro hno1 hex2
      have htier1 : ((fullSnapshotsOf events).filter fun p =>
          decide (p.2.timestamp ≤ s ∧ s - 30000 ≤ p.2.timestamp)) = [] := by
        rcases htier1' : (fullSnapshotsOf events).filter (fun p =>
            decide (p.2.timestamp ≤ s ∧ s - 30000 ≤ p.2.timestamp)) with _ | ⟨q, ql⟩
        · exact htier1'

        · exfalso
          have hqmem : q ∈ (fullSnapshotsOf events).filter fun p =>
              decide (p.2.timestamp ≤ s ∧ s - 30000 ≤ p.2.timestamp) := by
            rw [htier1']
            simp
          obtain ⟨hqfs, hqcond⟩ := List.mem_filter.mp hqmem
          simp only [decide_eq_true_eq] at hqcond
          have := mem_fullSnapshotsOf_iff.mp ⟨q.1, by simpa using hqfs⟩
          exact hno1 ⟨q.2, this.1, this.2, hqcond.1, hqcond.2⟩
      obtain ⟨k, hk, hk2, hkle⟩ := hex2
      obtain ⟨ik, hikmem⟩ := mem_fullSnapshotsOf_iff.mpr ⟨hk, hk2⟩
      have hkfil : (ik, k) ∈ (fullSnapshotsOf events).filter fun p =>
          decide (p.2.timestamp ≤ s) :=
        List.mem_filter.mpr ⟨hikmem, by simp [hkle]⟩
      have hne : ((fullSnapshotsOf events).filter fun p =>
          decide (p.2.timestamp ≤ s)) ≠ [] := List.ne_nil_of_mem hkfil
      obtain ⟨pl, hpl⟩ := Option.isSome_iff_exists.mp (List.getLast?_isSome.mpr hne)
      have hbase' : fallbackBase events s = some pl := by
        rw [fallbackBase, htier1, hpl]
        rfl
      rw [hbase'] at hbase
      rcases Option.some.inj hbase with rfl
      have hplmem := List.mem_of_mem_getLast? hpl
      have hplcond := (List.mem_filter.mp hplmem).2
      simp only [decide_eq_true_eq] at hplcond
      refine ⟨hplcond, ?_⟩
      intro k' hk' hk'2 hk'le
      obtain ⟨ik', hik'⟩ := mem_fullSnapshotsOf_iff.mpr ⟨hk', hk'2⟩
      have hk'fil : (ik', k') ∈ (fullSnapshotsOf events).filter fun p =>
          decide (p.2.timestamp ≤ s) :=
        List.mem_filter.mpr ⟨hik', by simp [hk'le]⟩
      exact pairwise_ts_le_getLast? _ (hpair.sublist (List.filter_sublist _))
        _ hpl _ hk'fil
    · -- tier 3
      intro hno2
      have htier : ∀ cond : Nat × Event → Bool,
          (∀ p : Nat × Event, cond p = true → p.2.timestamp ≤ s) →
          ((fullSnapshotsOf events).filter cond) = [] := by
        intro cond hcond
        rcases ht : (fullSnapshotsOf events).filter cond with _ | ⟨q, ql⟩
        · rfl
        · exfalso
          have hqmem : q ∈ (fullSnapshotsOf events).filter cond := by
            rw [ht]
            simp
          obtain ⟨hqfs, hqcond⟩ := List.mem_filter.mp hqmem
          have := mem_fullSnapshotsOf_iff.mp ⟨q.1, by simpa using hqfs⟩
          exact hno2 ⟨q.2, this.1, this.2, hcond q hqcond⟩
      have h1 := htier (fun p => decide (p.2.timestamp ≤ s ∧ s - 30000 ≤ p.2.timestamp))
        (by intro p hp; simp only [decide_eq_true_eq] at hp; exact hp.1)
      have h2 := htier (fun p => decide (p.2.timestamp ≤ s))
        (by intro p hp; simpa using hp)
      have hbase' : fallbackBase events s = (fullSnapshotsOf events).head? := by
        rw [fallbackBase, h1, h2]
        rfl
      rw [hbase'] at hbase
      have : ((fullSnapshotsOf events).head?).map Prod.snd = some b := by
        rw [hbase]
        rfl
      rw [← this, head?_fullSnapshotsOf_snd]

/-- Claim C8 witness: on the log with keyframes at 1000 and 1500 and
`startMs = 40000` the lookback window `[10000, 40000]` is empty, so the
second tier applies and selects the keyframe at 1500, the closest one at or
before the trim start. -/
theorem C8_fallback_base_selection_witness :
    (exKf 1500 "B") ∈ exLogShadow ∧ (exKf 1500 "B").type = 2 ∧
    (exKf 1500 "B").timestamp ≤ 40000 ∧
    (∀ k ∈ exLogShadow, k.type = 2 → k.timestamp ≤ 40000 →
      k.timestamp ≤ (exKf 1500 "B").timestamp) ∧
    (trimRecordingFallback exLogShadow 40000 50000
        = Except.error RecError.missingKeyframe ↔
      ∀ k ∈ exLogShadow, k.type ≠ 2) := by
  obtain ⟨hiff, hsel⟩ := C8_fallback_base_selection exLogShadow 40000 50000 (by decide)
  obtain ⟨h1, h2, -, h4, -⟩ := hsel 1 (exKf 1500 "B") (by decide)
  obtain ⟨h5, h6⟩ := h4 (by decide) (by decide)
  exact ⟨h1, h2, h5, h6, hiff⟩

lemma sorted_filter_shift (events : List Event) (s : ℚ) (pred : Event → Bool)
    (hs : SortedLog events) :
    List.Sorted tsLe ((events.filter pred).map
      fun ev => { ev with timestamp := ev.timestamp - s + 2 }) := by
  rw [List.Sorted, List.pairwise_map]
  refine (hs.filter pred).imp ?_
  intro a b hab
  show a.timestamp - s + 2 ≤ b.timestamp - s + 2
  have : a.timestamp ≤ b.timestamp := hab
  linarith

/-- Claim C7 (amended): on the success path the trim output is exactly the
fresh Meta event at timestamp 0 (its `href`/`width`/`height` inherited from
the original log's Meta event unless the Meta event or the field is absent
— or the field is falsy, i.e. an empty `href` or a zero `width`/`height` —
in which case the defaults are used), then the boundary keyframe at
timestamp 1, then every original event with timestamp in `(startMs, endMs]`
re-timestamped to `timestamp - startMs + 2`, in ascending timestamp order;
and `trimRecording` returns exactly this list whenever the boundary-keyframe
choice succeeds and the clamped range is valid. -/
lemma trimSuccess_eq (events : List Event) (s e : ℚ) (snap : Event)
    (hs : SortedLog events) :
    trimSuccess events s e snap
      = (⟨4, trimMetaData events, 0, snap.tabId⟩ : Event) ::
        { snap with timestamp := 1 } ::
        (events.filter fun ev => decide (s < ev.timestamp ∧ ev.timestamp ≤ e)).map
          (fun ev => { ev with timestamp := ev.timestamp - s + 2 }) := by
  rw [trimSuccess]
  apply sortByTs_eq_self
  rw [List.sorted_cons]
  constructor
  · intro b hb
    rcases List.mem_cons.mp hb with rfl | hb
    · show (0 : ℚ) ≤ 1
      norm_num
    · obtain ⟨ev, hev, rfl⟩ := List.mem_map.mp hb
      have hpred := (List.mem_filter.mp hev).2
      simp only [decide_eq_true_eq] at hpred
      show (0 : ℚ) ≤ ev.timestamp - s + 2
      linarith [hpred.1]
  · rw [List.sorted_cons]
    constructor
    · intro b hb
      obtain ⟨ev, hev, rfl⟩ := List.mem_map.mp hb
      have hpred := (List.mem_filter.mp hev).2
      simp only [decide_eq_true_eq] at hpred
      show (1 : ℚ) ≤ ev.timestamp - s + 2
      linarith [hpred.1]
    · exact sorted_filter_shift events s _ hs

lemma trimRecording_success_eq (recon : List Event → ℚ → Option Event)
    (events : List Event) (s0 e0 : ℚ) (snap : Event) (hne : events ≠ [])
    (hchoice : syntheticChoice recon events (clampedStart events s0) = some snap)
    (hrange : clampedStart events s0 < clampedEnd events e0) :
    trimRecording recon events s0 e0 = Except.ok
      (trimSuccess events (clampedStart events s0) (clampedEnd events e0) snap) := by
  match events with
  | [] => exact absurd rfl hne
  | e0' :: rest =>
    rw [trimRecording, if_neg (not_le.mpr hrange), hchoice]

theorem C7_success_output :
    (∀ (events : List Event) (s e : ℚ) (snap : Event), SortedLog events →
      trimSuccess events s e snap
        = (⟨4, trimMetaData events, 0, snap.tabId⟩ : Event) ::
          { snap with timestamp := 1 } ::
          (events.filter fun ev => decide (s < ev.timestamp ∧ ev.timestamp ≤ e)).map
            (fun ev => { ev with timestamp := ev.timestamp - s + 2 })) ∧
    (∀ (recon : List Event → ℚ → Option Event) (events : List Event) (s0 e0 : ℚ)
      (snap : Event), events ≠ [] →
      syntheticChoice recon events (clampedStart events s0) = some snap →
      clampedStart events s0 < clampedEnd events e0 →
      trimRecording recon events s0 e0 = Except.ok
        (trimSuccess events (clampedStart events s0) (clampedEnd events e0) snap)) :=
  ⟨trimSuccess_eq, trimRecording_success_eq⟩

/-- Claim C7 witness: the success-path shape applied to the two-event log
(and the path glue with the always-failing oracle, whose exact-match
keyframe at the clamped start makes the oracle irrelevant). -/
theorem C7_success_output_witness :
    (trimSuccess exLog2 1000 2000 (exKf 1000 "a")
      = (⟨4, trimMetaData exLog2, 0, (exKf 1000 "a").tabId⟩ : Event) ::
        { exKf 1000 "a" with timestamp := 1 } ::
        (exLog2.filter fun ev => decide ((1000 : ℚ) < ev.timestamp ∧ ev.timestamp ≤ 2000)).map
          (fun ev => { ev with timestamp := ev.timestamp - 1000 + 2 })) ∧
    trimRecording noRecon exLog2 1000 2000 = Except.ok
      (trimSuccess exLog2 (clampedStart exLog2 1000) (clampedEnd exLog2 2000)
        (exKf 1000 "a")) :=
  ⟨C7_success_output.1 exLog2 1000 2000 (exKf 1000 "a") (by decide),
   C7_success_output.2 noRecon exLog2 1000 2000 (exKf 1000 "a")
     (by decide) (by decide) (by decide)⟩

/-- Claim C7 counterexample: on a log whose Meta event carries falsy metadata
(`href = ""`, `width = 0`, `height = 0`) the claimed output — Meta fields
taken from the original Meta event, defaults only when absent — differs from
the actual output, which replaces every falsy field by its default. -/
theorem C7_counterexample :
    trimRecording noRecon exLogFalsy 1000 2000
      = Except.ok (trimSuccess exLogFalsy 1000 2000 (exKf 1000 "a")) ∧
    trimRecording noRecon exLogFalsy 1000 2000
      ≠ Except.ok (trimOutputClaimed exLogFalsy 1000 2000 (exKf 1000 "a")) ∧
    trimMetaDataClaimed exLogFalsy = ⟨some "", some 0, some 0, none, ""⟩ ∧
    trimMetaData exLogFalsy = ⟨some windowHref, some 1920, some 1080, none, ""⟩ :=
  ⟨by decide, by decide, by decide, by decide⟩

lemma cutRecording_ok_inv {events : List Event} {cs bs as' : ℚ} {out : List Event}
    (h : cutRecording events cs bs as' = Except.ok out) :
    List.Sorted tsLe out ∧ 2 ≤ out.length ∧ ∃ k ∈ out, k.type = 2 := by
  match events with
  | [] =>
    rw [cutRecording] at h
    exact absurd h (by simp)
  | e0 :: rest =>
    rw [cutRecording] at h
    split at h
    · exact absurd h (by simp)
    · next snap hsel =>
      have hout := (Except.ok.inj h).symm
      subst hout
      have hsnap2 : snap.type = 2 :=
        (selectSnapshot_eq_some_char _ _ _ hsel).2.1
      rw [cutAssemble]
      refine ⟨sortByTs_sorted _, ?_, ?_⟩
      · rw [sortByTs_length]
        split
        · next hlen =>
          rw [List.length_append]
          simp only [List.length_cons, List.length_singleton] at hlen ⊢
          omega
        · next hlen =>
          simp only [List.length_cons] at hlen ⊢
          omega
      · refine ⟨snap, ?_, hsnap2⟩
        rw [mem_sortByTs]
        split
        · exact List.mem_append_left _ (by simp)
        · simp

lemma trimRecordingFallback_ok_inv {events : List Event} {s e : ℚ} {out : List Event}
    (h : trimRecordingFallback events s e = Except.ok out) :
    2 ≤ out.length ∧ ∃ x ∈ out, x.type = 2 := by
  rw [trimRecordingFallback] at h
  split at h
  · exact absurd h (by simp)
  · split at h
    · exact absurd h (by simp)
    · next i b heq =>
      dsimp only at h
      split at h
      · exact absurd h (by simp)
      · next hlen =>
        have hout := (Except.ok.inj h).symm
        subst hout
        obtain ⟨-, x, hx, hxt⟩ := fallbackAssemble_ok events s e i b
        exact ⟨by omega, x, hx, by rw [hxt]; exact fallbackBase_type2 heq⟩

lemma mem_find?_filter_type2 {events : List Event} {k : Event}
    (h : closeSnapshotOf events s = some k) : k.type = 2 := by
  have hmem := List.mem_of_find?_eq_some h
  simpa using (List.mem_filter.mp hmem).2

lemma syntheticChoice_type2 {recon : List Event → ℚ → Option Event}
    (hrecon : ∀ l t ev, recon l t = some ev → ev.type = 2)
    {events : List Event} {s : ℚ} {snap : Event}
    (h : syntheticChoice recon events s = some snap) : snap.type = 2 := by
  rw [syntheticChoice] at h
  split at h
  · next k hk =>
    split at h
    · exact Option.some.inj h ▸ mem_find?_filter_type2 hk
    · exact hrecon events s snap h
  · exact hrecon events s snap h

/-- Claim C1 (amended): every `ok` output of `cutRecording` is in
non-decreasing timestamp order, has at least 2 events and contains a type-2
keyframe; every `ok` output of `trimRecording` (success path or fallback)
has at least 2 events and contains a type-2 keyframe; and the success-path
construction is always in non-decreasing timestamp order.  The keyframe is
not required to come first (a Meta event precedes it on the trim success
path, and earlier in-window events precede it in cut outputs), and fallback
outputs are not required to be in non-decreasing order. -/
theorem C1_output_invariants (events : List Event)
    (recon : List Event → ℚ → Option Event) (cs bs as' s e : ℚ)
    (hrecon : ∀ l t ev, recon l t = some ev → ev.type = 2) :
    (∀ out, cutRecording events cs bs as' = Except.ok out →
      List.Sorted tsLe out ∧ 2 ≤ out.length ∧ ∃ k ∈ out, k.type = 2) ∧
    (∀ out, trimRecording recon events s e = Except.ok out →
      2 ≤ out.length ∧ ∃ k ∈ out, k.type = 2) ∧
    (∀ (s' e' : ℚ) (snap : Event), List.Sorted tsLe (trimSuccess events s' e' snap)) := by
  refine ⟨fun out h => cutRecording_ok_inv h, ?_, fun s' e' snap => sortByTs_sorted _⟩
  intro out h
  match events with
  | [] =>
    rw [trimRecording] at h
    exact absurd h (by simp)
  | e0 :: rest =>
    rw [trimRecording] at h
    split at h
    · exact absurd h (by simp)
    · split at h
      · next snap hchoice =>
        have hout := (Except.ok.inj h).symm
        subst hout
        have hsnap2 : snap.type = 2 := syntheticChoice_type2 hrecon hchoice
        rw [trimSuccess]
        constructor
        · rw [sortByTs_length]
          simp only [List.length_cons]
          omega
        · refine ⟨{ snap with timestamp := 1 }, ?_, hsnap2⟩
          rw [mem_sortByTs]
          simp
      · exact trimRecordingFallback_ok_inv h

/-- Claim C1 witness: the cut part applied to the concrete scenario log and
the trim part applied to the two-event log with the always-failing oracle. -/
theorem C1_output_invariants_witness :
    (List.Sorted tsLe [exEv 9500, exKf 11000 "B"] ∧
      2 ≤ [exEv 9500, exKf 11000 "B"].length ∧
      ∃ k ∈ [exEv 9500, exKf 11000 "B"], k.type = 2) ∧
    (2 ≤ [⟨4, trimMetaData exLog2, 0, none⟩,
          { exKf 1000 "a" with timestamp := 1 }, exEv 1002].length ∧
      ∃ k ∈ [(⟨4, trimMetaData exLog2, 0, none⟩ : Event),
          { exKf 1000 "a" with timestamp := 1 }, exEv 1002], k.type = 2) :=
  ⟨(C1_output_invariants exLogCut noRecon 10 2 2 1000 2000
      (fun l t ev h => Option.noConfusion h)).1 _ (by decide),
   (C1_output_invariants exLog2 noRecon 10 2 2 1000 2000
      (fun l t ev h => Option.noConfusion h)).2.1 _ (by decide)⟩

/-- Claim C1 counterexample: the first output event of a trim is the Meta
event (type 4), not the keyframe; the first output event of the concrete cut
is a type-5 event preceding the keyframe; and a fallback output whose base
keyframe lies far before the trim start is not in non-decreasing timestamp
order (the shift runs after the sort). -/
theorem C1_counterexample :
    ((trimRecording noRecon exLog2 1000 2000).toOption.bind List.head?).map Event.type
      = some 4 ∧
    ((cutRecording exLogCut 10 2 2).toOption.bind List.head?).map Event.type = some 5 ∧
    ∃ out, trimRecordingFallback exLogFb 8000 10000 = Except.ok out ∧
      ¬ List.Sorted tsLe out := by
  refine ⟨by decide, by decide,
    ⟨[⟨2, ⟨none, none, none, none, "a"⟩, -6900, none⟩,
      ⟨3, ⟨none, none, none, some 0, ""⟩, 0, none⟩,
      ⟨4, ⟨some "h", some 10, some 20, none, ""⟩, -6899, none⟩,
      ⟨3, ⟨none, none, none, some 0, ""⟩, 2100, none⟩], ?_, ?_⟩⟩
  · decide
  · decide

lemma firstTs_le_clampedStart (events : List Event) (s : ℚ) :
    firstTs events ≤ clampedStart events s := by
  rw [clampedStart_eq_max]
  exact le_max_right _ _

lemma clampedEnd_le_lastTs (events : List Event) (e : ℚ) :
    clampedEnd events e ≤ lastTs events := by
  rw [clampedEnd_eq_min]
  exact min_le_right _ _

lemma getLastD_mem : ∀ (l : List Event) (d : Event), l ≠ [] → l.getLastD d ∈ l
  | [], _, h => absurd rfl h
  | [a], d, _ => by simp [List.getLastD]
  | a :: b :: t, d, _ => by
    rw [List.getLastD_cons]
    exact List.mem_cons_of_mem a (getLastD_mem (b :: t) a (by simp))

lemma lastTs_cons (e0 : Event) (rest : List Event) :
    lastTs (e0 :: rest) = ((e0 :: rest).getLastD e0).timestamp := by
  rw [lastTs, List.getLastD_eq_getLast?]
  cases h : (e0 :: rest).getLast? with
  | some x => rfl
  | none => exact absurd h (by simp)

lemma trim_success_analysis (recon : List Event → ℚ → Option Event)
    (events : List Event) (s0 e0 : ℚ) (snap : Event)
    (hs : SortedLog events) (hne : events ≠ [])
    (hchoice : syntheticChoice recon events (clampedStart events s0) = some snap)
    (hrange : clampedStart events s0 < clampedEnd events e0) :
    ∃ out st st', trimRecording recon events s0 e0 = Except.ok out ∧
      analyzeRecording events = some st ∧ analyzeRecording out = some st' ∧
      st'.duration ≤ st.duration + 2 / 1000 ∧
      st'.totalEvents ≤ st.totalEvents + 1 := by
  match events with
  | [] => exact absurd rfl hne
  | e0' :: rest =>
    have hout := trimRecording_success_eq recon (e0' :: rest) s0 e0 snap hne hchoice hrange
    rw [trimSuccess_eq _ _ _ _ hs] at hout
    refine ⟨_, _, _, hout, rfl, rfl, ?_, ?_⟩
    · -- duration bound
      dsimp only
      rw [List.getLastD_cons, List.getLastD_cons]
      have hD : e0'.timestamp ≤ ((e0' :: rest).getLastD e0').timestamp :=
        sorted_le_getLastD _ _ hs e0' (by simp)
      rw [div_add_div_same]
      rw [div_le_div_iff_of_pos_right (by norm_num : (0:ℚ) < 1000)]
      rw [List.getLastD_eq_getLast?]
      cases hsh : (List.map
          (fun ev => { ev with
            timestamp := ev.timestamp - clampedStart (e0' :: rest) s0 + 2 })
          (List.filter
            (fun ev => decide (clampedStart (e0' :: rest) s0 < ev.timestamp ∧
              ev.timestamp ≤ clampedEnd (e0' :: rest) e0))
            (e0' :: rest))).getLast? with
      | none =>
        show (1 : ℚ) - 0 ≤ _
        linarith
      | some x =>
        show x.timestamp - 0 ≤ _
        have hmem := List.mem_of_mem_getLast? hsh
        obtain ⟨ev, hev, heq⟩ := List.mem_map.mp hmem
        have hpred := (List.mem_filter.mp hev).2
        simp only [decide_eq_true_eq] at hpred
        have hts : x.timestamp = ev.timestamp - clampedStart (e0' :: rest) s0 + 2 := by
          rw [← heq]
        have h1 : firstTs (e0' :: rest) ≤ clampedStart (e0' :: rest) s0 :=
          firstTs_le_clampedStart _ _
        have h2 : clampedEnd (e0' :: rest) e0 ≤ lastTs (e0' :: rest) :=
          clampedEnd_le_lastTs _ _
        rw [lastTs_cons] at h2
        have h1' : e0'.timestamp ≤ clampedStart (e0' :: rest) s0 := h1
        linarith [hpred.1, hpred.2]
    · dsimp only
      simp only [List.length_cons, List.length_map]
      have hne0 : ¬ (clampedStart (e0' :: rest) s0 < e0'.timestamp ∧
          e0'.timestamp ≤ clampedEnd (e0' :: rest) e0) := by
        rintro ⟨h1, -⟩
        exact absurd h1 (not_lt.mpr (firstTs_le_clampedStart (e0' :: rest) s0))
      rw [List.filter_cons_of_neg (by simpa using hne0)]
      have hfl := List.length_filter_le
        (fun ev => decide (clampedStart (e0' :: rest) s0 < ev.timestamp ∧
          ev.timestamp ≤ clampedEnd (e0' :: rest) e0)) rest
      omega

lemma cutAssemble_cases (events : List Event) (c1 c2 : ℚ) (snap : Event) :
    cutAssemble events c1 c2 snap = [snap, fillerMeta (snap.timestamp + 100)] ∨
    (cutAssemble events c1 c2 snap = sortByTs (snap ::
        ((events.filter fun e =>
          decide (min snap.timestamp c1 ≤ e.timestamp ∧ e.timestamp ≤ c2)).filter
          fun e => decide (¬(e.timestamp = snap.timestamp ∧ e.type = 2)))) ∧
      2 ≤ (snap :: ((events.filter fun e =>
          decide (min snap.timestamp c1 ≤ e.timestamp ∧ e.timestamp ≤ c2)).filter
          fun e => decide (¬(e.timestamp = snap.timestamp ∧ e.type = 2)))).length) := by
  rw [cutAssemble]
  split
  · next hlen =>
    left
    have hfl : ((events.filter fun e =>
        decide (min snap.timestamp c1 ≤ e.timestamp ∧ e.timestamp ≤ c2)).filter
        fun e => decide (¬(e.timestamp = snap.timestamp ∧ e.type = 2))) = [] := by
      simp only [List.length_cons] at hlen
      exact List.length_eq_zero.mp (by omega)
    rw [hfl]
    have hpair : List.Sorted tsLe [snap, fillerMeta (snap.timestamp + 100)] := by
      rw [List.sorted_cons]
      constructor
      · intro b hb
        rcases List.mem_singleton.mp hb with rfl
        show snap.timestamp ≤ snap.timestamp + 100
        linarith
      · simp
    exact sortByTs_eq_self hpair
  · next hlen =>
    right
    refine ⟨rfl, ?_⟩
    simp only [List.length_cons] at hlen ⊢
    omega

lemma cutAssemble_analysis (events : List Event) (c1 c2 : ℚ) (snap : Event)
    (hs : SortedLog events) (hmem : snap ∈ events) (hne : events ≠ []) :
    ∃ st st', analyzeRecording events = some st ∧
      analyzeRecording (cutAssemble events c1 c2 snap) = some st' ∧
      st'.duration ≤ max st.duration (1 / 10) := by
  match events with
  | [] => exact absurd rfl hne
  | e0 :: rest =>
    rcases cutAssemble_cases (e0 :: rest) c1 c2 snap with hca | ⟨hca, hlen⟩
    · rw [hca]
      refine ⟨_, _, rfl, rfl, ?_⟩
      dsimp only
      rw [List.getLastD_cons]
      have hdur : ((([fillerMeta (snap.timestamp + 100)].getLastD snap).timestamp
          - snap.timestamp) / 1000 : ℚ) = 1 / 10 := by
        have hgl : ([fillerMeta (snap.timestamp + 100)].getLastD snap)
            = fillerMeta (snap.timestamp + 100) := rfl
        rw [hgl, fillerMeta]
        rw [show snap.timestamp + 100 - snap.timestamp = (100 : ℚ) from by ring]
        norm_num
      rw [hdur]
      exact le_max_right _ _
    · rw [hca]
      have hlen' : 0 < (sortByTs (snap :: ((List.filter (fun e =>
          decide (min snap.timestamp c1 ≤ e.timestamp ∧ e.timestamp ≤ c2)) (e0 :: rest)).filter
          fun e => decide (¬(e.timestamp = snap.timestamp ∧ e.type = 2))))).length := by
        rw [sortByTs_length]
        simp only [List.length_cons]
        omega
      cases hout : sortByTs (snap :: ((List.filter (fun e =>
          decide (min snap.timestamp c1 ≤ e.timestamp ∧ e.timestamp ≤ c2)) (e0 :: rest)).filter
          fun e => decide (¬(e.timestamp = snap.timestamp ∧ e.type = 2)))) with
      | nil =>
        rw [hout] at hlen'
        exact absurd hlen' (by simp)
      | cons o0 orest =>
        have hmemout : ∀ x ∈ o0 :: orest, x ∈ e0 :: rest := by
          intro x hx
          rw [← hout, mem_sortByTs] at hx
          rcases List.mem_cons.mp hx with rfl | hx
          · exact hmem
          · exact List.mem_of_mem_filter (List.mem_of_mem_filter hx)
        refine ⟨_, _, rfl, rfl, ?_⟩
        dsimp only
        have hlastmem : (o0 :: orest).getLastD o0 ∈ o0 :: orest :=
          getLastD_mem _ _ (by simp)
        have hb1 : e0.timestamp ≤ o0.timestamp :=
          sorted_head_le hs _ (hmemout o0 (by simp))
        have hb2 : ((o0 :: orest).getLastD o0).timestamp
            ≤ ((e0 :: rest).getLastD e0).timestamp :=
          sorted_le_getLastD _ _ hs _ (hmemout _ hlastmem)
        refine le_trans ?_ (le_max_left _ _)
        rw [div_le_div_iff_of_pos_right (by norm_num : (0:ℚ) < 1000)]
        linarith

/-- Claim C4 (amended): analyzing the output of the `trimRecording` success
path reports a duration at most the original duration plus 0.002 seconds (the
Meta and keyframe slots shift in-range events by 2 ms past the new origin)
and an event count at most the original count plus 1 (Meta and keyframe are
added, while at least the first original event always falls outside the
half-open trim range); analyzing the output of `cutRecording` reports a
duration at most the maximum of the original duration and 0.1 seconds (the
2-event filler sits 100 ms after the anchor keyframe).  The claimed bounds —
output duration and count never exceeding the original — are false. -/
theorem C4_analysis_bounds :
    (∀ (recon : List Event → ℚ → Option Event) (events : List Event) (s0 e0 : ℚ)
      (snap : Event), SortedLog events → events ≠ [] →
      syntheticChoice recon events (clampedStart events s0) = some snap →
      clampedStart events s0 < clampedEnd events e0 →
      ∃ out st st', trimRecording recon events s0 e0 = Except.ok out ∧
        analyzeRecording events = some st ∧ analyzeRecording out = some st' ∧
        st'.duration ≤ st.duration + 2 / 1000 ∧
        st'.totalEvents ≤ st.totalEvents + 1) ∧
    (∀ (events : List Event) (cs bs as' : ℚ) (out : List Event), SortedLog events →
      cutRecording events cs bs as' = Except.ok out →
      ∃ st st', analyzeRecording events = some st ∧ analyzeRecording out = some st' ∧
        st'.duration ≤ max st.duration (1 / 10)) := by
  refine ⟨trim_success_analysis, ?_⟩
  intro events cs bs as' out hs hok
  match events with
  | [] =>
    rw [cutRecording] at hok
    exact absurd hok (by simp)
  | e0 :: rest =>
    rw [cutRecording] at hok
    split at hok
    · exact absurd hok (by simp)
    · next snap hsel =>
      have hsnapmem : snap ∈ e0 :: rest := (selectSnapshot_eq_some_char _ _ _ hsel).1
      have hout := (Except.ok.inj hok).symm
      subst hout
      exact cutAssemble_analysis (e0 :: rest) _ _ snap hs hsnapmem (by simp)

/-- Claim C4 witness: the trim bound applied to the two-event log (exact-match
keyframe at the clamped start) and the cut bound applied to the concrete
filler-triggering call. -/
theorem C4_analysis_bounds_witness :
    (∃ out st st', trimRecording noRecon exLog2 1000 2000 = Except.ok out ∧
      analyzeRecording exLog2 = some st ∧ analyzeRecording out = some st' ∧
      st'.duration ≤ st.duration + 2 / 1000 ∧
      st'.totalEvents ≤ st.totalEvents + 1) ∧
    (∃ st st', analyzeRecording exLogTight = some st ∧
      analyzeRecording [exKf 1000 "a", fillerMeta 1100] = some st' ∧
      st'.duration ≤ max st.duration (1 / 10)) :=
  ⟨C4_analysis_bounds.1 noRecon exLog2 1000 2000 (exKf 1000 "a") (by decide) (by decide)
     (by decide) (by decide),
   C4_analysis_bounds.2 exLogTight 0 0 0 [exKf 1000 "a", fillerMeta 1100]
     (by decide) (by decide)⟩

/-- Claim C4 counterexample: trimming the two-event log over its full (valid,
clamped) range yields duration 1.002 s > 1 s and 3 events > 2 events; cutting
the 1 ms-long two-event log with a window that keeps only the keyframe yields
duration 0.1 s > 0.001 s. -/
theorem C4_counterexample :
    ((analyzeRecording exLog2).map RecordingStats.duration = some 1 ∧
     (analyzeRecording exLog2).map RecordingStats.totalEvents = some 2 ∧
     ((trimRecording noRecon exLog2 1000 2000).toOption.bind analyzeRecording).map
        RecordingStats.duration = some (501 / 500) ∧
     ((trimRecording noRecon exLog2 1000 2000).toOption.bind analyzeRecording).map
        RecordingStats.totalEvents = some 3 ∧
     ¬ ((501 : ℚ) / 500 ≤ 1) ∧ ¬ ((3 : Nat) ≤ 2)) ∧
    ((analyzeRecording exLogTight).map RecordingStats.duration = some (1 / 1000) ∧
     ((cutRecording exLogTight 0 0 0).toOption.bind analyzeRecording).map
        RecordingStats.duration = some (1 / 10) ∧
     ¬ ((1 : ℚ) / 10 ≤ 1 / 1000)) :=
  ⟨⟨by decide, by decide, by decide, by decide, by decide, by decide⟩,
   by decide, by decide, by decide⟩

end RecordingCutter
